import Mathlib

/-!
Verification of the ingestion/retrieval core of the rag-agent repository.

The definitions below are a shallow embedding of the Python source:

* `src/rag_agent/retrieval.py` — `DocumentRetrieval.retrieve_relevant_docs`
  and `DocumentRetrieval.get_context_for_query`, `get_statistics`.
* `src/rag_agent/ingestion.py` — the *effective* (second) `DocumentIngestion`
  class: `ingest_document`, `delete_document`, and the shadowed first
  `DocumentIngestion.ingest_document` that carries the content-hash ledger.

Scores and distances are modelled as rationals, Python lists as `List`,
the Chroma vector store as an explicit list of id/metadata/content entries.
The text splitter is `langchain`'s `RecursiveCharacterTextSplitter`, which is
library code not part of this repository; it is modelled from the spec
(`splitText` below).
-/

/-- One entry of the vector store: id, plus the metadata fields written by
`chunk_text` (`file_name`, `chunk_id`, `total_chunks`) and the chunk text. -/
structure IndexEntry where
  id : Nat
  fileName : String
  chunkId : Nat
  totalChunks : Nat
  content : String
deriving DecidableEq

/-- The Chroma vector store: the persisted entries plus a fresh-id counter
standing for Chroma's internal id generation in `add_documents`. -/
structure VectorStore where
  nextId : Nat
  entries : List IndexEntry
deriving DecidableEq

/-- A raw hit returned by `vector_store.similarity_search_with_score`:
document content, its metadata fields, and the backend distance. -/
structure SearchHit where
  content : String
  fileName : String
  chunkId : Nat
  distance : ℚ
deriving DecidableEq

/-- `RetrievalResult` from retrieval.py (the free-form `metadata` dict is
dropped; `file_name` and `chunk_id` are the fields the code reads from it). -/
structure RetrievalResult where
  content : String
  score : ℚ
  fileName : String
  chunkId : Nat
deriving DecidableEq

/-- retrieval.py line 96: `similarity_score = max(0.0, 1.0 - score)`. -/
def normalizeScore (d : ℚ) : ℚ := max 0 (1 - d)

/-- The `RetrievalResult` built from a hit at retrieval.py lines 99-105. -/
def mkResult (h : SearchHit) : RetrievalResult :=
  RetrievalResult.mk h.content (normalizeScore h.distance) h.fileName h.chunkId

/-- The filtering loop of `retrieve_relevant_docs` (lines 93-106): keep a hit
iff its normalized score is `>= score_threshold`. -/
def filterHits (scoreThreshold : ℚ) (hits : List SearchHit) : List RetrievalResult :=
  hits.filterMap (fun h =>
    if scoreThreshold ≤ normalizeScore h.distance then some (mkResult h) else none)

/-- The descending-score order used by `results.sort(key=..., reverse=True)`. -/
def scoreGE (a b : RetrievalResult) : Prop := b.score ≤ a.score

instance : DecidableRel scoreGE :=
  fun a b => inferInstanceAs (Decidable (b.score ≤ a.score))

instance : IsTotal RetrievalResult scoreGE := ⟨fun a b => le_total b.score a.score⟩

instance : IsTrans RetrievalResult scoreGE := ⟨fun _ _ _ h1 h2 => le_trans h2 h1⟩

/-- Python `list.sort(key=lambda x: x.score, reverse=True)` is a stable sort
placing higher scores first; insertion sort with `scoreGE` realizes exactly
that (ties keep original order). -/
def sortByScoreDesc (l : List RetrievalResult) : List RetrievalResult :=
  List.insertionSort scoreGE l

/-- `retrieve_relevant_docs` (retrieval.py lines 86-112) for an available
index, as a function of the backend's raw hit list: normalize, threshold,
stable-sort descending. -/
def retrieveRelevantDocs (hits : List SearchHit) (scoreThreshold : ℚ) : List RetrievalResult :=
  sortByScoreDesc (filterHits scoreThreshold hits)

/-- `retrieve_relevant_docs` including the availability guard at line 82:
an unavailable retrieval system yields `[]`. -/
def retrieveRelevantDocsAPI (available : Bool) (hits : List SearchHit)
    (scoreThreshold : ℚ) : List RetrievalResult :=
  if available then retrieveRelevantDocs hits scoreThreshold else []

/-- The sentinel string returned at retrieval.py lines 179 and 204. -/
def sentinel : String := "No relevant documents found in the knowledge base."

/-- Python `f"{q:.2f}"` on a (nonnegative) score: round to hundredths and
print two decimals. Computed from numerator and denominator with integer
arithmetic (round half up; the claims only depend on the rendered width). -/
def fmt2 (q : ℚ) : String :=
  let n : ℤ := (q.num * 100 + (q.den : ℤ) / 2) / (q.den : ℤ)
  toString (n / 100) ++ "." ++
    (if n % 100 < 10 then "0" ++ toString (n % 100) else toString (n % 100))

/-- The per-chunk formatting of `get_context_for_query` (lines 186-188). -/
def formatChunk (r : RetrievalResult) : String :=
  "## From " ++ r.fileName ++ " (chunk " ++ toString (r.chunkId + 1) ++ ")\n" ++
    "Relevance: " ++ fmt2 r.score ++ "\n\n" ++ r.content ++ "\n\n"

/-- Line 191: `chunk_tokens = len(chunk_text) // 4`. -/
def estTokens (s : String) : Nat := s.length / 4

/-- The accumulation loop of `get_context_for_query` (lines 184-197): walk the
results in order, break at the first chunk whose estimate would push the
running total over `max_tokens`, otherwise collect the formatted chunk. -/
def assembleLoop (results : List RetrievalResult) (total maxTokens : Nat) : List String :=
  match results with
  | [] => []
  | r :: rs =>
    let ct := formatChunk r
    let t := estTokens ct
    if maxTokens < total + t then []
    else ct :: assembleLoop rs (total + t) maxTokens

/-- `get_context_for_query` (retrieval.py lines 164-204) as a function of the
already-retrieved result list. -/
def getContextForQuery (results : List RetrievalResult) (maxTokens : Nat) : String :=
  match results with
  | [] => sentinel
  | _ :: _ =>
    let parts := assembleLoop results 0 maxTokens
    if parts.isEmpty then sentinel
    else
      "## Relevant Context\n\n" ++ String.join parts ++
        "\n---\n*Retrieved " ++ toString parts.length ++ " relevant document chunks*"

/-- `get_statistics` (retrieval.py lines 241-279): `total_files` is the number
of distinct `file_name` values among the stored metadatas. -/
def totalFiles (store : VectorStore) : Nat :=
  ((store.entries.map (·.fileName)).dedup).length

/-- The id-collection pass of `delete_document` (ingestion.py lines 764-767). -/
def idsForFile (store : VectorStore) (name : String) : List Nat :=
  store.entries.filterMap (fun e => if e.fileName = name then some e.id else none)

/-- `delete_document` (ingestion.py lines 752-779): collect the ids whose
`file_name` matches, delete them from the store, return whether any existed. -/
def deleteDocument (store : VectorStore) (name : String) : Bool × VectorStore :=
  let ids := idsForFile store name
  if ids.isEmpty then (false, store)
  else (true, VectorStore.mk store.nextId
    (store.entries.filter (fun e => decide (e.id ∉ ids))))

/-- One pass of the sliding chunk window, fuel-indexed for structural
recursion; with `fuel ≥ text.length` and `step ≥ 1` the fuel never runs out. -/
def slideGo (chunkSize step : Nat) : Nat → List Char → List (List Char)
  | _, [] => []
  | 0, t => [t]
  | fuel + 1, t =>
    if t.length ≤ chunkSize then [t]
    else t.take chunkSize :: slideGo chunkSize step fuel (t.drop step)

/-- Modelled from the spec: the Chunker (`RecursiveCharacterTextSplitter`,
configured in ingestion.py lines 538-543, is langchain library code absent
from this repository). Spec §4.2 and §8: ordered, bounded, overlapping
segments; each chunk after the first is prefixed with the trailing `overlap`
characters of the previous chunk; empty text yields an empty sequence; text
shorter than `chunk_size` yields exactly one chunk with no overlap applied.
Scenario A pins the boundaries at character granularity: a chunk starts
`chunk_size - overlap` characters after its predecessor, so each chunk is the
window of `chunk_size` characters from that position (the last window may be
shorter), which is what this definition computes. -/
def splitText (chunkSize overlap : Nat) (text : List Char) : List (List Char) :=
  slideGo chunkSize (chunkSize - overlap) text.length text

/-- Strip the overlap prefix from every chunk except the first (the operation
named by spec §8's chunk-coverage property). -/
def stripOverlap (overlap : Nat) : List (List Char) → List (List Char)
  | [] => []
  | c :: rest => c :: rest.map (List.drop overlap)

/-- The `status` value of a failed per-file ingestion result. -/
def statusError : String := "error"

/-- The `status` value of a successful ingestion result. -/
def statusSuccess : String := "success"

/-- The `status` value of a deduplicated (short-circuited) ingestion. -/
def statusSkipped : String := "skipped"

/-- Keys of `DocumentIngestion.SUPPORTED_EXTENSIONS` (ingestion.py 512-529). -/
def SUPPORTED_EXTENSIONS : List String :=
  [".txt", ".md", ".py", ".js", ".ts", ".html", ".css", ".json", ".yml",
    ".yaml", ".xml", ".pdf", ".docx", ".csv", ".xlsx", ".xls"]

/-- The per-file inputs of `ingest_document`: display name, byte size, lowered
extension, and the text its parser would produce (parsing itself is pure
decoding of external formats; its output is taken as given). -/
structure IngestFile where
  name : String
  size : Nat
  ext : String
  text : List Char
deriving DecidableEq

/-- Observable outcome of one `ingest_document` call: the `status` field of
the returned dict, the reported number of chunks, and whether control ever
reached the parsing step (for the fail-fast claims). -/
structure IngestResult where
  status : String
  numChunks : Nat
  didParse : Bool
deriving DecidableEq

/-- The `Document` objects built by `chunk_text` (ingestion.py 610-631) as
store entries: `chunk_id` is the position, `total_chunks` the chunk count. -/
def mkEntries (startId : Nat) (name : String) (chunks : List (List Char)) : List IndexEntry :=
  chunks.enum.map (fun p =>
    IndexEntry.mk (startId + p.1) name p.1 chunks.length p.2.asString)

/-- `vector_store.add_documents` on the chunk list of one document. -/
def addChunks (store : VectorStore) (name : String) (chunks : List (List Char)) : VectorStore :=
  VectorStore.mk (store.nextId + chunks.length)
    (store.entries ++ mkEntries store.nextId name chunks)

/-- The effective `DocumentIngestion.ingest_document` (ingestion.py 637-685,
the second, shadowing class): size check, parse (which first rejects
unsupported extensions, lines 585-590), empty-content check, chunk, add.
Exceptions are caught at line 679 and become a `status="error"` dict. -/
def ingestDocument (store : VectorStore) (f : IngestFile) : IngestResult × VectorStore :=
  if 50 * 1024 * 1024 < f.size then (IngestResult.mk statusError 0 false, store)
  else if f.ext ∈ SUPPORTED_EXTENSIONS then
    (if f.text.all (fun c => c.isWhitespace) then (IngestResult.mk statusError 0 true, store)
     else
       let chunks := splitText 500 50 f.text
       (IngestResult.mk statusSuccess chunks.length true, addChunks store f.name chunks))
  else (IngestResult.mk statusError 0 false, store)

/-- The shadowed first `DocumentIngestion.ingest_document` (ingestion.py
226-325): its `self.metadata` ledger maps content hashes to document records;
a known hash short-circuits with `status="skipped"` before parsing. The
ledger is modelled by its key list; the file carries its content hash. -/
def firstIngestDocument (ledger : List String) (store : VectorStore)
    (hash : String) (f : IngestFile) : String × List String × VectorStore :=
  if hash ∈ ledger then (statusSkipped, ledger, store)
  else if f.text.all (fun c => c.isWhitespace) then (statusError, ledger, store)
  else
    let chunks := splitText 500 50 f.text
    (statusSuccess, hash :: ledger, addChunks store f.name chunks)

/-! ## Helper lemmas -/

theorem mem_filterHits {scoreThreshold : ℚ} {hits : List SearchHit} {r : RetrievalResult} :
    r ∈ filterHits scoreThreshold hits ↔
      ∃ h ∈ hits, r = mkResult h ∧ scoreThreshold ≤ normalizeScore h.distance := by
  unfold filterHits
  rw [List.mem_filterMap]
  constructor
  · rintro ⟨h, hmem, heq⟩
    by_cases hth : scoreThreshold ≤ normalizeScore h.distance
    · rw [if_pos hth] at heq
      exact ⟨h, hmem, (Option.some_injective _ heq).symm, hth⟩
    · rw [if_neg hth] at heq
      exact absurd heq (Option.noConfusion)
  · rintro ⟨h, hmem, hr, hth⟩
    exact ⟨h, hmem, by rw [if_pos hth, hr]⟩

theorem mem_retrieveRelevantDocs {scoreThreshold : ℚ} {hits : List SearchHit}
    {r : RetrievalResult} :
    r ∈ retrieveRelevantDocs hits scoreThreshold ↔
      ∃ h ∈ hits, r = mkResult h ∧ scoreThreshold ≤ normalizeScore h.distance := by
  unfold retrieveRelevantDocs sortByScoreDesc
  rw [(List.perm_insertionSort scoreGE (filterHits scoreThreshold hits)).mem_iff]
  exact mem_filterHits

theorem filter_score_orderedInsert (s : ℚ) (x : RetrievalResult) (l : List RetrievalResult) :
    (List.orderedInsert scoreGE x l).filter (fun r => decide (r.score = s)) =
      if x.score = s then x :: l.filter (fun r => decide (r.score = s))
      else l.filter (fun r => decide (r.score = s)) := by
  induction l with
  | nil =>
    by_cases hx : x.score = s <;>
      simp [List.orderedInsert, List.filter, hx]
  | cons y ys ih =>
    by_cases hr : scoreGE x y
    · rw [List.orderedInsert_of_le _ _ hr]
      by_cases hx : x.score = s <;> simp [List.filter, hx]
    · have hys : y.score < s → x.score = s → False := by
        intro hy hx
        exact hr (le_of_lt (by rw [hx]; exact hy))
      have hlt : x.score < y.score := lt_of_not_le hr
      simp only [List.orderedInsert, if_neg hr]
      by_cases hy : y.score = s
      · have hx : ¬ x.score = s := by
          intro hx
          rw [hx, hy] at hlt
          exact lt_irrefl s hlt
        simp [List.filter, hy, hx, ih, hx]
      · by_cases hx : x.score = s <;> simp [List.filter, hy, hx, ih]

theorem filter_score_sortByScoreDesc (s : ℚ) (l : List RetrievalResult) :
    (sortByScoreDesc l).filter (fun r => decide (r.score = s)) =
      l.filter (fun r => decide (r.score = s)) := by
  induction l with
  | nil => rfl
  | cons x xs ih =>
    unfold sortByScoreDesc at *
    simp only [List.insertionSort, filter_score_orderedInsert, ih]
    by_cases hx : x.score = s <;> simp [List.filter, hx]

theorem assembleLoop_cons (r : RetrievalResult) (rs : List RetrievalResult)
    (total maxTokens : Nat) :
    assembleLoop (r :: rs) total maxTokens =
      if maxTokens < total + estTokens (formatChunk r) then []
      else formatChunk r :: assembleLoop rs (total + estTokens (formatChunk r)) maxTokens := rfl

theorem assembleLoop_budget (results : List RetrievalResult) (total maxTokens : Nat)
    (h : total ≤ maxTokens) :
    total + ((assembleLoop results total maxTokens).map estTokens).sum ≤ maxTokens := by
  induction results generalizing total with
  | nil => simpa using h
  | cons r rs ih =>
    unfold assembleLoop
    by_cases hov : maxTokens < total + estTokens (formatChunk r)
    · simpa [hov] using h
    · have hle : total + estTokens (formatChunk r) ≤ maxTokens := le_of_not_lt hov
      have := ih (total + estTokens (formatChunk r)) hle
      simp only [if_neg hov, List.map_cons, List.sum_cons]
      omega

theorem assembleLoop_isPrefix (results : List RetrievalResult) (total maxTokens : Nat) :
    assembleLoop results total maxTokens <+: results.map formatChunk := by
  induction results generalizing total with
  | nil => simp [assembleLoop]
  | cons r rs ih =>
    rw [assembleLoop_cons]
    by_cases hov : maxTokens < total + estTokens (formatChunk r)
    · simp [hov]
    · rw [if_neg hov]
      obtain ⟨t, ht⟩ := ih (total + estTokens (formatChunk r))
      exact ⟨t, by simp [ht]⟩

theorem assembleLoop_stop (results : List RetrievalResult) (total maxTokens : Nat) :
    ∀ r, (results.drop (assembleLoop results total maxTokens).length).head? = some r →
      maxTokens <
        total + ((assembleLoop results total maxTokens).map estTokens).sum +
          estTokens (formatChunk r) := by
  induction results generalizing total with
  | nil => intro r hr; simp [assembleLoop] at hr
  | cons x xs ih =>
    intro r hr
    rw [assembleLoop_cons] at hr ⊢
    by_cases hov : maxTokens < total + estTokens (formatChunk x)
    · rw [if_pos hov] at hr ⊢
      simp only [List.length_nil, List.drop_zero, List.head?_cons,
        Option.some.injEq] at hr
      subst hr
      simpa using hov
    · rw [if_neg hov] at hr ⊢
      simp only [List.length_cons, List.drop_succ_cons] at hr
      have := ih (total + estTokens (formatChunk x)) r hr
      simp only [List.map_cons, List.sum_cons]
      omega

theorem slideGo_nil (chunkSize step fuel : Nat) : slideGo chunkSize step fuel [] = [] := by
  cases fuel <;> rfl

theorem slideGo_succ (chunkSize step fuel : Nat) (t : List Char) (h : t ≠ []) :
    slideGo chunkSize step (fuel + 1) t =
      if t.length ≤ chunkSize then [t]
      else t.take chunkSize :: slideGo chunkSize step fuel (t.drop step) := by
  cases t with
  | nil => exact absurd rfl h
  | cons a t => rfl

theorem slideGo_chunk_length (chunkSize step : Nat) (hs : 1 ≤ step) :
    ∀ (fuel : Nat) (t : List Char), t.length ≤ fuel →
      ∀ c ∈ slideGo chunkSize step fuel t, c.length ≤ chunkSize := by
  intro fuel
  induction fuel with
  | zero =>
    intro t ht
    have : t = [] := List.eq_nil_of_length_eq_zero (Nat.le_zero.mp ht)
    subst this
    simp [slideGo_nil]
  | succ fuel ih =>
    intro t ht c hc
    by_cases hnil : t = []
    · subst hnil; simp [slideGo_nil] at hc
    · rw [slideGo_succ chunkSize step fuel t hnil] at hc
      by_cases hlen : t.length ≤ chunkSize
      · rw [if_pos hlen] at hc
        simp at hc
        subst hc; exact hlen
      · rw [if_neg hlen] at hc
        rcases List.mem_cons.mp hc with hc | hc
        · subst hc
          simp
        · refine ih (t.drop step) ?_ c hc
          simp only [List.length_drop]
          omega

theorem slideGo_flatten_map_drop (chunkSize overlap step : Nat)
    (hso : step + overlap = chunkSize) (hs : 1 ≤ step) :
    ∀ (fuel : Nat) (t : List Char), t ≠ [] → t.length ≤ fuel →
      ((slideGo chunkSize step fuel t).map (List.drop overlap)).flatten = t.drop overlap := by
  intro fuel
  induction fuel with
  | zero =>
    intro t hnil ht
    exact absurd (List.eq_nil_of_length_eq_zero (Nat.le_zero.mp ht)) hnil
  | succ fuel ih =>
    intro t hnil ht
    rw [slideGo_succ chunkSize step fuel t hnil]
    by_cases hlen : t.length ≤ chunkSize
    · simp [hlen]
    · rw [if_neg hlen]
      have hstep_lt : step < t.length := by omega
      have hdnil : t.drop step ≠ [] := by
        intro hd
        have := congrArg List.length hd
        simp only [List.length_drop, List.length_nil] at this
        omega
      have hdlen : (t.drop step).length ≤ fuel := by
        simp only [List.length_drop]; omega
      simp only [List.map_cons, List.flatten_cons, ih (t.drop step) hdnil hdlen]
      rw [List.drop_take, List.drop_drop]
      have h1 : chunkSize - overlap = step := by omega
      rw [h1, Nat.add_comm step overlap, ← List.drop_drop]
      exact List.take_append_drop step (t.drop overlap)

theorem splitText_strip_flatten (chunkSize overlap : Nat) (h : overlap < chunkSize)
    (t : List Char) :
    (stripOverlap overlap (splitText chunkSize overlap t)).flatten = t := by
  cases t with
  | nil => simp [splitText, slideGo_nil, stripOverlap]
  | cons a t' =>
    have hnil : (a :: t') ≠ [] := List.cons_ne_nil a t'
    have hstep : 1 ≤ chunkSize - overlap := by omega
    unfold splitText
    simp only [List.length_cons]
    rw [slideGo_succ chunkSize (chunkSize - overlap) t'.length (a :: t') hnil]
    by_cases hlen : (a :: t').length ≤ chunkSize
    · rw [if_pos hlen]
      simp [stripOverlap]
    · rw [if_neg hlen]
      simp only [List.length_cons] at hlen
      have hdnil : (a :: t').drop (chunkSize - overlap) ≠ [] := by
        intro hd
        have := congrArg List.length hd
        simp only [List.length_drop, List.length_cons, List.length_nil] at this
        omega
      have hdlen : ((a :: t').drop (chunkSize - overlap)).length ≤ t'.length := by
        simp only [List.length_drop, List.length_cons]; omega
      unfold stripOverlap
      simp only [List.flatten_cons,
        slideGo_flatten_map_drop chunkSize overlap (chunkSize - overlap)
          (by omega) hstep t'.length ((a :: t').drop (chunkSize - overlap)) hdnil hdlen]
      rw [List.drop_drop]
      have h1 : chunkSize - overlap + overlap = chunkSize := by omega
      rw [h1]
      exact List.take_append_drop chunkSize (a :: t')

theorem mem_idsForFile {store : VectorStore} {name : String} {x : Nat} :
    x ∈ idsForFile store name ↔
      ∃ e ∈ store.entries, e.fileName = name ∧ e.id = x := by
  unfold idsForFile
  rw [List.mem_filterMap]
  constructor
  · rintro ⟨e, hmem, heq⟩
    by_cases hn : e.fileName = name
    · rw [if_pos hn] at heq
      exact ⟨e, hmem, hn, Option.some_injective _ heq⟩
    · rw [if_neg hn] at heq
      exact absurd heq (Option.noConfusion)
  · rintro ⟨e, hmem, hn, hx⟩
    exact ⟨e, hmem, by rw [if_pos hn, hx]⟩

theorem deleteDocument_entries (store : VectorStore) (name : String)
    (hids : (store.entries.map (·.id)).Nodup) :
    (deleteDocument store name).2.entries =
      store.entries.filter (fun e => decide (e.fileName ≠ name)) := by
  unfold deleteDocument
  by_cases hemp : (idsForFile store name).isEmpty
  · rw [if_pos hemp]
    have hnone : ∀ e ∈ store.entries, e.fileName ≠ name := by
      intro e he hn
      have : e.id ∈ idsForFile store name := mem_idsForFile.mpr ⟨e, he, hn, rfl⟩
      rw [List.isEmpty_iff.mp hemp] at this
      simp at this
    exact (List.filter_eq_self.mpr (fun e he => by
      simp only [decide_eq_true_eq]; exact hnone e he)).symm
  · rw [if_neg hemp]
    exact List.filter_congr (fun e he => by
      rw [decide_eq_decide]
      constructor
      · intro hnotin hn
        exact hnotin (mem_idsForFile.mpr ⟨e, he, hn, rfl⟩)
      · intro hn hin
        obtain ⟨e', he', hn', hid⟩ := mem_idsForFile.mp hin
        have : e' = e := List.inj_on_of_nodup_map hids he' he hid
        exact hn (this ▸ hn'))

theorem filter_map_fileName (p : String → Bool) (l : List IndexEntry) :
    (l.filter (fun e => p e.fileName)).map (·.fileName) =
      (l.map (·.fileName)).filter p := by
  induction l with
  | nil => rfl
  | cons e l ih =>
    by_cases hp : p e.fileName <;> simp [List.filter_cons, hp, ih]

theorem dedup_filter_comm {α : Type} [DecidableEq α] (p : α → Bool) (l : List α) :
    (l.filter p).dedup = l.dedup.filter p := by
  induction l with
  | nil => rfl
  | cons a l ih =>
    by_cases hp : p a
    · rw [List.filter_cons_of_pos hp]
      by_cases ha : a ∈ l
      · rw [List.dedup_cons_of_mem (List.mem_filter.mpr ⟨ha, hp⟩),
          List.dedup_cons_of_mem ha, ih]
      · rw [List.dedup_cons_of_not_mem (fun hc => ha (List.mem_filter.mp hc).1),
          List.dedup_cons_of_not_mem ha, List.filter_cons_of_pos hp, ih]
    · rw [List.filter_cons_of_neg hp]
      by_cases ha : a ∈ l
      · rw [List.dedup_cons_of_mem ha, ih]
      · rw [List.dedup_cons_of_not_mem ha, List.filter_cons_of_neg hp, ih]

theorem length_filter_ne_of_nodup {α : Type} [DecidableEq α] {l : List α} {a : α}
    (hn : l.Nodup) (ha : a ∈ l) :
    (l.filter (fun x => decide (x ≠ a))).length + 1 = l.length := by
  induction l with
  | nil => simp at ha
  | cons b l ih =>
    rw [List.nodup_cons] at hn
    rcases List.mem_cons.mp ha with hab | hal
    · subst hab
      rw [List.filter_cons_of_neg (by simp)]
      have : l.filter (fun x => decide (x ≠ a)) = l :=
        List.filter_eq_self.mpr (fun x hx => by
          simp only [decide_eq_true_eq]
          intro hxa
          exact hn.1 (hxa ▸ hx))
      rw [this, List.length_cons]
    · have hba : b ≠ a := fun hc => hn.1 (hc ▸ hal)
      rw [List.filter_cons_of_pos (by simpa using hba), List.length_cons,
        List.length_cons, ← ih hn.2 hal]

/-! ## Claim theorems -/

/-- C3: for every backend hit list (the `k` nearest entries) and every
`score_threshold`, `retrieve_relevant_docs` maps each raw distance `d` to the
normalized score `max(0, 1 - d)`, and a hit appears in the returned list iff
its normalized score is at least the threshold (strictly lower entries are
dropped). -/
theorem c3_score_map_threshold_filter (hits : List SearchHit) (scoreThreshold : ℚ) :
    ∀ r : RetrievalResult,
      r ∈ retrieveRelevantDocs hits scoreThreshold ↔
        ∃ h ∈ hits,
          r = RetrievalResult.mk h.content (max 0 (1 - h.distance)) h.fileName h.chunkId ∧
            max 0 (1 - h.distance) ≥ scoreThreshold :=
  fun _ => mem_retrieveRelevantDocs

/-- C4: provided the backend reports nonnegative distances, every returned
score lies in `[0,1]`; the returned list is sorted non-increasing by score;
and the sort is stable: for every score value, the results carrying it appear
in the same order as in the pre-sort (threshold-filtered) hit order. -/
theorem c4_score_bounds_sorted_stable (hits : List SearchHit) (scoreThreshold : ℚ)
    (hd : ∀ h ∈ hits, 0 ≤ h.distance) :
    (∀ r ∈ retrieveRelevantDocs hits scoreThreshold, 0 ≤ r.score ∧ r.score ≤ 1) ∧
      List.Sorted scoreGE (retrieveRelevantDocs hits scoreThreshold) ∧
      (∀ s : ℚ,
        (retrieveRelevantDocs hits scoreThreshold).filter (fun r => decide (r.score = s)) =
          (filterHits scoreThreshold hits).filter (fun r => decide (r.score = s))) := by
  refine ⟨?_, ?_, fun s => filter_score_sortByScoreDesc s (filterHits scoreThreshold hits)⟩
  · intro r hr
    obtain ⟨h, hh, hr, _⟩ := mem_retrieveRelevantDocs.mp hr
    subst hr
    constructor
    · exact le_max_left 0 (1 - h.distance)
    · exact max_le (by norm_num) (by linarith [hd h hh])
  · exact List.sorted_insertionSort scoreGE (filterHits scoreThreshold hits)

/-- Witness for C4 at a concrete three-hit input with a tie. -/
theorem c4_witness :
    (∀ h ∈ [SearchHit.mk ("a") ("f") 0 0, SearchHit.mk ("b") ("g") 1 2,
        SearchHit.mk ("c") ("h") 2 0], 0 ≤ h.distance) ∧
      ((∀ r ∈ retrieveRelevantDocs [SearchHit.mk ("a") ("f") 0 0,
          SearchHit.mk ("b") ("g") 1 2, SearchHit.mk ("c") ("h") 2 0] 0,
          0 ≤ r.score ∧ r.score ≤ 1) ∧
        List.Sorted scoreGE (retrieveRelevantDocs [SearchHit.mk ("a") ("f") 0 0,
          SearchHit.mk ("b") ("g") 1 2, SearchHit.mk ("c") ("h") 2 0] 0) ∧
        (∀ s : ℚ,
          (retrieveRelevantDocs [SearchHit.mk ("a") ("f") 0 0,
            SearchHit.mk ("b") ("g") 1 2,
            SearchHit.mk ("c") ("h") 2 0] 0).filter (fun r => decide (r.score = s)) =
            (filterHits 0 [SearchHit.mk ("a") ("f") 0 0,
              SearchHit.mk ("b") ("g") 1 2,
              SearchHit.mk ("c") ("h") 2 0]).filter (fun r => decide (r.score = s)))) :=
  ⟨by decide, c4_score_bounds_sorted_stable _ 0 (by decide)⟩

/-- C6: retrieval does not raise at the API boundary: with the retrieval
system unavailable, or with an empty index (no hits), `retrieve_relevant_docs`
returns `[]`; `get_context_for_query` on an empty retrieval returns the
defined non-empty sentinel string rather than an empty string. -/
theorem c6_retrieval_never_raises :
    ∀ (hits : List SearchHit) (scoreThreshold : ℚ) (maxTokens : Nat),
      retrieveRelevantDocsAPI false hits scoreThreshold = [] ∧
        retrieveRelevantDocsAPI true [] scoreThreshold = [] ∧
        getContextForQuery [] maxTokens = sentinel ∧
        sentinel = "No relevant documents found in the knowledge base." ∧
        0 < sentinel.length :=
  fun _ _ _ => ⟨rfl, rfl, rfl, rfl, by decide⟩

/-- C10: `get_context_for_query` returns the same sentinel string in two
distinct situations: when retrieval produced no results at all, and when
results exist but the first (highest-scoring) chunk alone already overflows
`max_tokens` — the consumer cannot distinguish the two outcomes. -/
theorem c10_sentinel_ambiguity (r : RetrievalResult) (rs : List RetrievalResult)
    (maxTokens : Nat) (h : maxTokens < estTokens (formatChunk r)) :
    getContextForQuery (r :: rs) maxTokens = sentinel ∧
      getContextForQuery [] maxTokens = sentinel := by
  refine ⟨?_, rfl⟩
  unfold getContextForQuery
  rw [assembleLoop_cons]
  simp [h]

/-- Witness for C10: a short single result with a zero budget lands in the
sentinel branch, indistinguishable from the empty-retrieval sentinel. -/
theorem c10_witness :
    0 < estTokens (formatChunk (RetrievalResult.mk ("x") 0 ("a") 0)) ∧
      (getContextForQuery [RetrievalResult.mk ("x") 0 ("a") 0] 0 = sentinel ∧
        getContextForQuery [] 0 = sentinel) :=
  ⟨by decide, c10_sentinel_ambiguity (RetrievalResult.mk ("x") 0 ("a") 0) [] 0 (by decide)⟩

/-- Counterexample for C2: the claim that the assembled context's estimated
token count (`len // 4`) never exceeds the budget fails on the code. With one
short retrieved chunk whose own estimate is 10 and a budget of 10 tokens, the
loop admits the chunk, but the returned text also carries the uncounted
`## Relevant Context` header and the `*Retrieved N ...*` footer, so its
estimate is 26 > 10. -/
theorem c2_budget_counterexample :
    ¬ (estTokens (getContextForQuery [RetrievalResult.mk ("x") 0 ("a") 0] 10) ≤ 10) := by
  decide

/-- C2 (amended): the greedy accumulation itself respects the budget — the
sum of the per-chunk token estimates of the included chunks is at most
`max_tokens`; the included chunks form a prefix of the formatted retrieval
results (descending score order, whole chunks only, never truncated); and
the loop stops exactly before the first chunk whose estimate would overflow.
The returned string additionally wraps the chunks in a header and footer that
the loop does not count, so the whole text's estimate may exceed the budget
(see the counterexample). -/
theorem c2_budget_amended (hits : List SearchHit) (scoreThreshold : ℚ) (maxTokens : Nat) :
    ((assembleLoop (retrieveRelevantDocs hits scoreThreshold) 0 maxTokens).map
        estTokens).sum ≤ maxTokens ∧
      assembleLoop (retrieveRelevantDocs hits scoreThreshold) 0 maxTokens <+:
        (retrieveRelevantDocs hits scoreThreshold).map formatChunk ∧
      (∀ r,
        ((retrieveRelevantDocs hits scoreThreshold).drop
            (assembleLoop (retrieveRelevantDocs hits scoreThreshold) 0
              maxTokens).length).head? = some r →
          maxTokens <
            ((assembleLoop (retrieveRelevantDocs hits scoreThreshold) 0 maxTokens).map
                estTokens).sum + estTokens (formatChunk r)) := by
  refine ⟨?_, assembleLoop_isPrefix _ 0 maxTokens, fun r hr => ?_⟩
  · simpa using assembleLoop_budget (retrieveRelevantDocs hits scoreThreshold) 0
      maxTokens (Nat.zero_le maxTokens)
  · simpa using assembleLoop_stop (retrieveRelevantDocs hits scoreThreshold) 0
      maxTokens r hr

/-- Witness for C2 (amended) at one concrete hit and a 10-token budget. -/
theorem c2_budget_amended_witness :
    ((assembleLoop (retrieveRelevantDocs [SearchHit.mk ("x") ("a") 0 1] 0) 0 10).map
        estTokens).sum ≤ 10 ∧
      assembleLoop (retrieveRelevantDocs [SearchHit.mk ("x") ("a") 0 1] 0) 0 10 <+:
        (retrieveRelevantDocs [SearchHit.mk ("x") ("a") 0 1] 0).map formatChunk ∧
      (∀ r,
        ((retrieveRelevantDocs [SearchHit.mk ("x") ("a") 0 1] 0).drop
            (assembleLoop (retrieveRelevantDocs [SearchHit.mk ("x") ("a") 0 1] 0) 0
              10).length).head? = some r →
          10 <
            ((assembleLoop (retrieveRelevantDocs [SearchHit.mk ("x") ("a") 0 1] 0) 0 10).map
                estTokens).sum + estTokens (formatChunk r)) :=
  c2_budget_amended [SearchHit.mk ("x") ("a") 0 1] 0 10

/-- C7: chunk coverage — for every character sequence and every
`overlap < chunk_size`, concatenating the chunks after stripping the overlap
prefix from every chunk except the first reconstructs the input exactly. -/
theorem c7_chunk_coverage (chunkSize overlap : Nat) (text : List Char)
    (h : overlap < chunkSize) :
    (stripOverlap overlap (splitText chunkSize overlap text)).flatten = text :=
  splitText_strip_flatten chunkSize overlap h text

/-- Witness for C7: chunk size 3, overlap 1, a five-character text. -/
theorem c7_witness :
    1 < 3 ∧
      (stripOverlap 1 (splitText 3 1 ['a', 'b', 'c', 'd', 'e'])).flatten =
        ['a', 'b', 'c', 'd', 'e'] :=
  ⟨by decide, c7_chunk_coverage 3 1 ['a', 'b', 'c', 'd', 'e'] (by decide)⟩

/-- C8: every produced chunk has length at most `chunk_size` (the model's
separator priorities end at character granularity, so no indivisible
oversized token ever arises and the bound is unconditional); empty text
yields the empty chunk sequence; nonempty text shorter than `chunk_size`
yields exactly one chunk, the text itself, with no overlap applied. -/
theorem c8_chunk_bounds_edge_cases (chunkSize overlap : Nat) (text : List Char)
    (h : overlap < chunkSize) :
    (∀ c ∈ splitText chunkSize overlap text, c.length ≤ chunkSize) ∧
      (text = [] → splitText chunkSize overlap text = []) ∧
      (text.length < chunkSize → text ≠ [] → splitText chunkSize overlap text = [text]) := by
  refine ⟨?_, ?_, ?_⟩
  · exact slideGo_chunk_length chunkSize (chunkSize - overlap) (by omega)
      text.length text le_rfl
  · intro ht
    subst ht
    simp [splitText, slideGo_nil]
  · intro hlen hne
    unfold splitText
    cases text with
    | nil => exact absurd rfl hne
    | cons a t' =>
      simp only [List.length_cons]
      rw [slideGo_succ chunkSize (chunkSize - overlap) t'.length (a :: t')
        (List.cons_ne_nil a t')]
      rw [if_pos (by simpa using le_of_lt hlen)]

/-- Witness for C8: chunk size 5, overlap 1, a three-character text. -/
theorem c8_witness :
    1 < 5 ∧
      ((∀ c ∈ splitText 5 1 ['a', 'b', 'c'], c.length ≤ 5) ∧
        (['a', 'b', 'c'] = ([] : List Char) → splitText 5 1 ['a', 'b', 'c'] = []) ∧
        ((['a', 'b', 'c'] : List Char).length < 5 → ['a', 'b', 'c'] ≠ ([] : List Char) →
          splitText 5 1 ['a', 'b', 'c'] = [['a', 'b', 'c']])) :=
  ⟨by decide, c8_chunk_bounds_edge_cases 5 1 ['a', 'b', 'c'] (by decide)⟩

/-- C9: fail-fast rejection — a file over the 50MB limit or with an
unsupported extension yields a `status="error"` result with no parsing work
performed and the vector store untouched. -/
theorem c9_fail_fast_rejection (store : VectorStore) (f : IngestFile)
    (h : 50 * 1024 * 1024 < f.size ∨ f.ext ∉ SUPPORTED_EXTENSIONS) :
    (ingestDocument store f).1.status = statusError ∧
      (ingestDocument store f).1.didParse = false ∧
      (ingestDocument store f).2 = store := by
  unfold ingestDocument
  rcases h with hsize | hext
  · rw [if_pos hsize]
    exact ⟨rfl, rfl, rfl⟩
  · by_cases hsize : 50 * 1024 * 1024 < f.size
    · rw [if_pos hsize]
      exact ⟨rfl, rfl, rfl⟩
    · rw [if_neg hsize, if_neg hext]
      exact ⟨rfl, rfl, rfl⟩

/-- Witness for C9: a one-byte `.bin` file is rejected unparsed. -/
theorem c9_witness :
    (50 * 1024 * 1024 < 1 ∨ (".bin") ∉ SUPPORTED_EXTENSIONS) ∧
      ((ingestDocument (VectorStore.mk 0 []) (IngestFile.mk ("a.bin") 1 (".bin") ['x'])).1.status =
          statusError ∧
        (ingestDocument (VectorStore.mk 0 [])
            (IngestFile.mk ("a.bin") 1 (".bin") ['x'])).1.didParse = false ∧
        (ingestDocument (VectorStore.mk 0 []) (IngestFile.mk ("a.bin") 1 (".bin") ['x'])).2 =
          VectorStore.mk 0 []) :=
  ⟨by decide,
    c9_fail_fast_rejection (VectorStore.mk 0 []) (IngestFile.mk ("a.bin") 1 (".bin") ['x'])
      (by decide)⟩

/-- C1: the claim is the intent (spec §4.3, §8 Idempotence, and the shadowed
first `DocumentIngestion.ingest_document` at ingestion.py 244-260, which
checks the content-hash ledger and short-circuits with `status="skipped"`),
but the effective second `DocumentIngestion` class (line 509) shadows it and
its `ingest_document` (lines 637-685) never consults any hash ledger: on the
concrete failing input — the same one-byte `.txt` file ingested twice — the
second call again returns `status="success"` and appends duplicate chunks
(the entry count doubles from 1 to 2), while the shadowed first definition on
the same input returns `status="skipped"` with the store unchanged. -/
theorem c1_idempotence_code_bug :
    ((ingestDocument (VectorStore.mk 0 []) (IngestFile.mk ("a.txt") 1 (".txt") ['x'])).1.status =
        statusSuccess) ∧
      ((ingestDocument (VectorStore.mk 0 [])
          (IngestFile.mk ("a.txt") 1 (".txt") ['x'])).2.entries.length = 1) ∧
      ((ingestDocument
          (ingestDocument (VectorStore.mk 0 []) (IngestFile.mk ("a.txt") 1 (".txt") ['x'])).2
          (IngestFile.mk ("a.txt") 1 (".txt") ['x'])).1.status = statusSuccess) ∧
      ((ingestDocument
          (ingestDocument (VectorStore.mk 0 []) (IngestFile.mk ("a.txt") 1 (".txt") ['x'])).2
          (IngestFile.mk ("a.txt") 1 (".txt") ['x'])).2.entries.length = 2) ∧
      ((firstIngestDocument
          (firstIngestDocument [] (VectorStore.mk 0 []) ("h1")
            (IngestFile.mk ("a.txt") 1 (".txt") ['x'])).2.1
          (firstIngestDocument [] (VectorStore.mk 0 []) ("h1")
            (IngestFile.mk ("a.txt") 1 (".txt") ['x'])).2.2
          ("h1") (IngestFile.mk ("a.txt") 1 (".txt") ['x'])).1 = statusSkipped) ∧
      ((firstIngestDocument
          (firstIngestDocument [] (VectorStore.mk 0 []) ("h1")
            (IngestFile.mk ("a.txt") 1 (".txt") ['x'])).2.1
          (firstIngestDocument [] (VectorStore.mk 0 []) ("h1")
            (IngestFile.mk ("a.txt") 1 (".txt") ['x'])).2.2
          ("h1") (IngestFile.mk ("a.txt") 1 (".txt") ['x'])).2.2 =
        (firstIngestDocument [] (VectorStore.mk 0 []) ("h1")
          (IngestFile.mk ("a.txt") 1 (".txt") ['x'])).2.2) := by
  decide

/-- C5: deletion cascades and preserves the frame. After `delete_document
name`, the store is exactly the original minus the entries of `name` (every
other document's entries are untouched, in order); no remaining entry has
source `name`; any query whose backend hits are drawn from the post-deletion
store returns no chunk with source `name`; and the statistics document count
drops by one. -/
theorem c5_deletion_cascade_frame (store : VectorStore) (name : String)
    (scoreThreshold : ℚ) (hits : List SearchHit)
    (hids : (store.entries.map (·.id)).Nodup)
    (hmem : name ∈ store.entries.map (·.fileName))
    (hhits : ∀ h ∈ hits, ∃ e ∈ (deleteDocument store name).2.entries,
      h.fileName = e.fileName) :
    ((deleteDocument store name).2.entries =
        store.entries.filter (fun e => decide (e.fileName ≠ name))) ∧
      (∀ e ∈ (deleteDocument store name).2.entries, e.fileName ≠ name) ∧
      (∀ r ∈ retrieveRelevantDocs hits scoreThreshold, r.fileName ≠ name) ∧
      totalFiles (deleteDocument store name).2 + 1 = totalFiles store := by
  have h1 := deleteDocument_entries store name hids
  have hcas : ∀ e ∈ (deleteDocument store name).2.entries, e.fileName ≠ name := by
    intro e he
    rw [h1] at he
    have h2 := (List.mem_filter.mp he).2
    simpa using h2
  refine ⟨h1, hcas, ?_, ?_⟩
  · intro r hr
    obtain ⟨h, hh, hrr, _⟩ := mem_retrieveRelevantDocs.mp hr
    obtain ⟨e, he, heq⟩ := hhits h hh
    have hrf : r.fileName = h.fileName := by rw [hrr]; rfl
    rw [hrf, heq]
    exact hcas e he
  · unfold totalFiles
    rw [h1]
    have h2 : (store.entries.filter (fun e => decide (e.fileName ≠ name))).map (·.fileName) =
        (store.entries.map (·.fileName)).filter (fun s => decide (s ≠ name)) := by
      simpa using filter_map_fileName (fun s => decide (s ≠ name)) store.entries
    rw [h2, dedup_filter_comm]
    exact length_filter_ne_of_nodup (List.nodup_dedup _) (List.mem_dedup.mpr hmem)

/-- Witness for C5: two single-chunk documents, one removed, queried with a
hit drawn from the remaining document. -/
theorem c5_witness :
    ((([IndexEntry.mk 0 ("a") 0 1 ("x"), IndexEntry.mk 1 ("b") 0 1 ("y")].map
        (·.id)).Nodup) ∧
      ("a") ∈ [IndexEntry.mk 0 ("a") 0 1 ("x"), IndexEntry.mk 1 ("b") 0 1 ("y")].map
        (·.fileName) ∧
      (∀ h ∈ [SearchHit.mk ("y") ("b") 0 0],
        ∃ e ∈ (deleteDocument
            (VectorStore.mk 2 [IndexEntry.mk 0 ("a") 0 1 ("x"), IndexEntry.mk 1 ("b") 0 1 ("y")])
            ("a")).2.entries, h.fileName = e.fileName)) ∧
      (((deleteDocument
            (VectorStore.mk 2 [IndexEntry.mk 0 ("a") 0 1 ("x"), IndexEntry.mk 1 ("b") 0 1 ("y")])
            ("a")).2.entries =
          [IndexEntry.mk 0 ("a") 0 1 ("x"), IndexEntry.mk 1 ("b") 0 1 ("y")].filter
            (fun e => decide (e.fileName ≠ ("a")))) ∧
        (∀ e ∈ (deleteDocument
            (VectorStore.mk 2 [IndexEntry.mk 0 ("a") 0 1 ("x"), IndexEntry.mk 1 ("b") 0 1 ("y")])
            ("a")).2.entries, e.fileName ≠ ("a")) ∧
        (∀ r ∈ retrieveRelevantDocs [SearchHit.mk ("y") ("b") 0 0] 0, r.fileName ≠ ("a")) ∧
        totalFiles (deleteDocument
            (VectorStore.mk 2 [IndexEntry.mk 0 ("a") 0 1 ("x"), IndexEntry.mk 1 ("b") 0 1 ("y")])
            ("a")).2 + 1 =
          totalFiles (VectorStore.mk 2
            [IndexEntry.mk 0 ("a") 0 1 ("x"), IndexEntry.mk 1 ("b") 0 1 ("y")])) :=
  ⟨⟨by decide, by decide, by decide⟩,
    c5_deletion_cascade_frame
      (VectorStore.mk 2 [IndexEntry.mk 0 ("a") 0 1 ("x"), IndexEntry.mk 1 ("b") 0 1 ("y")])
      ("a") 0 [SearchHit.mk ("y") ("b") 0 0] (by decide) (by decide) (by decide)⟩
